import Mathlib

/-!
Shallow embedding of `src/image-cache.js` (react-native-image-cache).

Strings are modelled as Lean `String`s (manipulated through their character
lists), JS numbers holding epoch-millisecond timestamps as `Int`, and the
floating-point day-gap arithmetic as `ℚ`.  The external collaborators
(`valid-url`'s `isUri`, `object-hash`'s `hash`, the file system, the network
and `AsyncStorage`) are injected, exactly as the spec describes them: the
first two as explicit function parameters, the rest through a `World` record
holding the persisted mapping, the set of on-disk artifact paths, a fetch
oracle and a storage-write oracle.  Each operation is a function from a
`World` to (promise outcome, new `World`, list of performed I/O effects); the
asynchronous JS code is interpreted sequentially.
-/

namespace ImageCache

/-- JS `String.prototype.lastIndexOf` for a single character: the greatest
index at which the character occurs, or `-1` when it does not occur. -/
def jsLastIndexOf : List Char → Char → Int
  | [], _ => -1
  | x :: xs, c =>
    let r := jsLastIndexOf xs c
    if 0 ≤ r then r + 1 else if x = c then 0 else -1

/-- JS `String.prototype.indexOf` for a single character: the least index at
which the character occurs, or `-1` when it does not occur. -/
def jsIndexOf : List Char → Char → Int
  | [], _ => -1
  | x :: xs, c =>
    if x = c then 0
    else
      let r := jsIndexOf xs c
      if r < 0 then -1 else r + 1

/-- JS `s.substring(i)` (for `i ≤ s.length`): negative start indices clamp
to `0`. -/
def jsSubstringFrom (s : List Char) (i : Int) : List Char := s.drop i.toNat

/-- JS `s.substring(0, j)` (for `0 ≤ j ≤ s.length`). -/
def jsSubstringUpTo (s : List Char) (j : Int) : List Char := s.take j.toNat

/-- Source `const validImageExtensions = ['.jpg', '.png', '.jpeg', '.gif'];` -/
def validImageExtensions : List String := [".jpg", ".png", ".jpeg", ".gif"]

/-- Source `getImageInfo(uri)`: validates the URI, takes the
substring from the last `/`, strips everything from the first `?` of that
substring, requires a `.` in the result, and accepts iff the substring from
the last `.` is one of the recognized extensions; on acceptance returns
`hash(uri) + '.' + fileExtension.substring(1)`.  `hashFn` and `isUri` are the
injected `object-hash` and `valid-url` collaborators. -/
def getImageInfo (hashFn : String → String) (isUri : String → Bool)
    (uri : String) : Option String :=
  if isUri uri then
    let u := uri.toList
    let path := jsSubstringFrom u (jsLastIndexOf u '/')
    let pathName :=
      if jsIndexOf path '?' = -1 then path
      else jsSubstringUpTo path (jsIndexOf path '?')
    if 0 ≤ jsLastIndexOf pathName '.' then
      let fileExtension := jsSubstringFrom pathName (jsLastIndexOf pathName '.')
      if validImageExtensions.contains (String.mk fileExtension) then
        some (hashFn uri ++ "." ++ String.mk (fileExtension.drop 1))
      else none
    else none
  else none

/-- The spec's Identity Deriver, written from the spec's own words: extract
the path segment after the last `/`, strip any query string (everything from
the first `?` onward), reject when the stripped segment has no `.`, take the
extension as the substring from the last `.` to the end, accept iff it is one
of the four recognized extensions, and return `hash(uri) + "." +
extensionWithoutDot`. -/
def deriveKeySpec (hashFn : String → String) (isUri : String → Bool)
    (uri : String) : Option String :=
  if isUri uri then
    let seg := ((uri.toList.reverse.takeWhile (fun a => a != '/')).reverse).takeWhile
      (fun a => a != '?')
    if '.' ∈ seg then
      let ext := '.' :: (seg.reverse.takeWhile (fun a => a != '.')).reverse
      if validImageExtensions.contains (String.mk ext) then
        some (hashFn uri ++ "." ++ String.mk (ext.drop 1))
      else none
    else none
  else none

/-- One persisted mapping-table entry: `{fileInfo, created}`.  `fileInfo` is
an `Option` because a JS object field can hold `undefined` (and
`JSON.stringify` then drops the key), which `none` models. -/
structure Entry where
  fileInfo : Option String
  created : Int
deriving Repr, DecidableEq

/-- The mapping table: a JS object with string keys, modelled as an
association list with unique keys in insertion order. -/
abbrev Mapping := List (String × Entry)

/-- Read of `cacheMapping[uri]`. -/
def lookupEntry : Mapping → String → Option Entry
  | [], _ => none
  | (k, v) :: rest, uri => if k = uri then some v else lookupEntry rest uri

/-- Write `cacheMapping[uri] = e`: overwrite in place or append. -/
def setEntry : Mapping → String → Entry → Mapping
  | [], uri, e => [(uri, e)]
  | (k, v) :: rest, uri, e =>
    if k = uri then (uri, e) :: rest else (k, v) :: setEntry rest uri e

/-- Outcome of the injected network fetcher for one URI: the request either
completes with a transport-level status code (the response body having been
streamed to the configured path), or throws a transport error, in which case
`wrotePart` tells whether a partial file was left at the path. -/
inductive FetchResult where
  | completed (status : Nat)
  | err (e : String) (wrotePart : Bool)

/-- The injected environment: `storage` is the parsed value persisted under
the `cache_image` key (`none` = no record; unparseable data behaves as
absent, matching the reset-to-`{}` read path), `files` the set of existing
artifact paths, `fetch` the per-URI network oracle, `setItemErr` the
`AsyncStorage.setItem` oracle (`some e` = the write rejects with `e`), and
`now` the value `Date.now()` returns. -/
structure World where
  storage : Option Mapping
  files : List String
  fetch : String → FetchResult
  setItemErr : Option String
  now : Int

/-- One observable I/O effect. -/
inductive Effect where
  | storageGet
  | storageSet
  | fsExists (p : String)
  | netFetch (uri : String)
  | fsUnlink (p : String)
deriving Repr, DecidableEq

/-- Settlement of a JS promise; `pending` marks an execution path on which
neither `resolve` nor `reject` is ever called. -/
inductive Outcome (α : Type) where
  | resolved (v : α)
  | rejected (e : String)
  | pending
deriving Repr, DecidableEq

/-- Modelled from the spec: `dirs.CacheDir`, the platform cache-directory
root injected by the file-system collaborator (not part of the core). -/
def cacheDirRoot : String := "/cache"

/-- Source `generateAbsolutePath(fileInfo) = dirs.CacheDir + '/' + fileInfo`. -/
def generateAbsolutePath (fileInfo : String) : String :=
  cacheDirRoot ++ "/" ++ fileInfo

/-- JS string coercion applied to a possibly-`undefined` value, as in
`dirs.CacheDir + '/' + fileInfo` when `fileInfo` is `undefined`. -/
def jsStringOrUndefined : Option String → String
  | some s => s
  | none => "undefined"

/-- Source `calculateDayGap(date1, date2) = (date1 - date2) / (24*60*60*1000)`,
JS floating-point division modelled exactly as rational division. -/
def calculateDayGap (date1 date2 : Int) : ℚ :=
  ((date1 : ℚ) - (date2 : ℚ)) / (24 * 60 * 60 * 1000)

/-- Source `getCurrentCacheMappingFromAsyncStorage()`: reads the persisted record;
`null` (and unparseable data, which is reset with a log) yields `{}`. -/
def getCurrentCacheMappingFromAsyncStorage (w : World) :
    Mapping × List Effect :=
  (w.storage.getD [], [Effect.storageGet])

/-- Source `getImagePath(fileInfo)`: resolves the absolute path and probes existence;
returns the path when the artifact is already on disk, `undefined` otherwise
(an I/O error from the probe is also `undefined`, i.e. treated as absent). -/
def getImagePath (w : World) (fileInfo : String) :
    Option String × List Effect :=
  let imagePath := generateAbsolutePath fileInfo
  (if w.files.contains imagePath then some imagePath else none,
   [Effect.fsExists imagePath])

/-- Source `updateCacheMapping({uri, fileInfo})`: read-modify-write of the whole
table; when `uri` already has an entry it resolves with the table unchanged
and performs no write; otherwise it inserts `{fileInfo, created: Date.now()}`
and persists, rejecting iff the `setItem` rejects. -/
def updateCacheMapping (w : World) (uri fileInfo : String) :
    Outcome Mapping × World × List Effect :=
  let (cacheMapping, t) := getCurrentCacheMappingFromAsyncStorage w
  match lookupEntry cacheMapping uri with
  | some _ => (.resolved cacheMapping, w, t)
  | none =>
    let m := setEntry cacheMapping uri { fileInfo := some fileInfo, created := w.now }
    match w.setItemErr with
    | none => (.resolved m, { w with storage := some m }, t ++ [Effect.storageSet])
    | some e => (.rejected e, w, t ++ [Effect.storageSet])

/-- The resolve value `{uri, imagePath}` of `fetchImage`. -/
structure UriImagePath where
  uri : String
  imagePath : String
deriving Repr, DecidableEq

/-- Source `fetchImage(uri)`: derive the key (rejecting `wrong file format` without
any I/O when absent); probe existence and resolve the cache hit; otherwise
fetch into the resolved path — on status 200 resolve `{uri, path}` and update
the mapping best-effort (its rejection only logged); on a non-200 status
`throwErrorOnInCompletedImageFetch` flushes the cached file and throws
`cannot preload image: uri`, and on a transport error the error itself
propagates; either failure is caught, the destination unlinked (idempotent,
unlink errors swallowed) and the promise rejected with the caught error. -/
def fetchImage (hashFn : String → String) (isUri : String → Bool)
    (w : World) (uri : String) :
    Outcome UriImagePath × World × List Effect :=
  match getImageInfo hashFn isUri uri with
  | none => (.rejected ("wrong file format: " ++ uri), w, [])
  | some fileInfo =>
    let (imagePath?, t0) := getImagePath w fileInfo
    match imagePath? with
    | some imagePath => (.resolved ⟨uri, imagePath⟩, w, t0)
    | none =>
      let p := generateAbsolutePath fileInfo
      match w.fetch uri with
      | .completed status =>
        let w1 := { w with files := p :: w.files }
        if status = 200 then
          let (_, w2, t1) := updateCacheMapping w1 uri fileInfo
          (.resolved ⟨uri, p⟩, w2, t0 ++ [Effect.netFetch uri] ++ t1)
        else
          let w2 := { w1 with files := w1.files.erase p }
          let w3 := { w2 with files := w2.files.erase p }
          (.rejected ("cannot preload image: " ++ uri), w3,
           t0 ++ [Effect.netFetch uri, Effect.fsUnlink p])
      | .err e wrotePart =>
        let w1 := if wrotePart then { w with files := p :: w.files } else w
        (.rejected e, { w1 with files := w1.files.erase p },
         t0 ++ [Effect.netFetch uri, Effect.fsUnlink p])

/-- The resolve value of `preloadImage`: the cache-hit branch resolves
`{uri, imagePath}` while the download branch resolves `{uri, fileInfo}`, so
both fields are optional, `none` modelling an absent (`undefined`) field. -/
structure PreloadRes where
  uri : String
  imagePath : Option String
  fileInfo : Option String
deriving Repr, DecidableEq

/-- Source `preloadImage(uri)`: same shape as `fetchImage`, but it does not update
the mapping itself, resolves `{uri, fileInfo}` after a download (leaving the
merge to `preloadImages`) and resolves `{uri, imagePath}` on a cache hit. -/
def preloadImage (hashFn : String → String) (isUri : String → Bool)
    (w : World) (uri : String) :
    Outcome PreloadRes × World × List Effect :=
  match getImageInfo hashFn isUri uri with
  | none => (.rejected ("wrong file format: " ++ uri), w, [])
  | some fileInfo =>
    let (imagePath?, t0) := getImagePath w fileInfo
    match imagePath? with
    | some imagePath => (.resolved ⟨uri, some imagePath, none⟩, w, t0)
    | none =>
      let p := generateAbsolutePath fileInfo
      match w.fetch uri with
      | .completed status =>
        let w1 := { w with files := p :: w.files }
        if status = 200 then
          (.resolved ⟨uri, none, some fileInfo⟩, w1, t0 ++ [Effect.netFetch uri])
        else
          let w2 := { w1 with files := w1.files.erase p }
          let w3 := { w2 with files := w2.files.erase p }
          (.rejected ("cannot preload image: " ++ uri), w3,
           t0 ++ [Effect.netFetch uri, Effect.fsUnlink p])
      | .err e wrotePart =>
        let w1 := if wrotePart then { w with files := p :: w.files } else w
        (.rejected e, { w1 with files := w1.files.erase p },
         t0 ++ [Effect.netFetch uri, Effect.fsUnlink p])

/-- Source `downloadImages(uris)`: one `preloadImage` per URI with every per-URI
rejection caught (logged, becoming `undefined` = `none` in the result array);
the concurrent `Promise.all` join is interpreted sequentially. -/
def downloadImages (hashFn : String → String) (isUri : String → Bool) :
    World → List String → List (Option PreloadRes) × World × List Effect
  | w, [] => ([], w, [])
  | w, uri :: uris =>
    let (r, w1, t1) := preloadImage hashFn isUri w uri
    let r? := match r with
      | .resolved v => some v
      | _ => none
    let (rs, w2, t2) := downloadImages hashFn isUri w1 uris
    (r? :: rs, w2, t1 ++ t2)

/-- The `{tried, downloaded}` aggregate of `preloadImages`. -/
structure Info where
  tried : Nat
  downloaded : Nat
deriving Repr, DecidableEq

/-- The resolve value `{info, cacheMapping}` of `preloadImages`. -/
structure BatchRes where
  info : Info
  cacheMapping : Mapping
deriving Repr, DecidableEq

/-- The `responses.forEach` body of `preloadImages`: for every defined
response, overwrite `cacheMapping[r.uri] = {created: current, fileInfo:
r.fileInfo}` and bump `numberOfDownloadedImages`. -/
def mergeResponses (current : Int) :
    Mapping × Nat → List (Option PreloadRes) → Mapping × Nat
  | acc, [] => acc
  | acc, none :: rs => mergeResponses current acc rs
  | acc, some r :: rs =>
    mergeResponses current
      (setEntry acc.1 r.uri { created := current, fileInfo := r.fileInfo },
       acc.2 + 1) rs

/-- Source `preloadImages(uris)`: download every URI best-effort, then merge the
defined responses into the table read from storage, stamping each with one
shared `Date.now()` and counting them; the final `setItem` failure is only
logged, and the promise resolves with `{info, cacheMapping}`. -/
def preloadImages (hashFn : String → String) (isUri : String → Bool)
    (w : World) (uris : List String) :
    Outcome BatchRes × World × List Effect :=
  let (responses, w1, t1) := downloadImages hashFn isUri w uris
  let (cacheMapping0, t2) := getCurrentCacheMappingFromAsyncStorage w1
  let current := w1.now
  let merged := mergeResponses current (cacheMapping0, 0) responses
  let info : Info := { tried := uris.length, downloaded := merged.2 }
  let w2 := match w1.setItemErr with
    | none => { w1 with storage := some merged.1 }
    | some _ => w1
  (.resolved { info := info, cacheMapping := merged.1 }, w2,
   t1 ++ t2 ++ [Effect.storageSet])

/-- Source `clearExpiredImage(expiredPeriod = 30)`: when no record is persisted the
executor returns without calling `resolve` or `reject` (the promise stays
pending forever); otherwise it unlinks the artifact of every entry whose day
gap exceeds the period, then deletes from the table every entry whose day gap
is truthy (nonzero — not compared against the period), persists the reduced
table and resolves `removed expired images from cache`, rejecting iff the
`setItem` rejects. -/
def clearExpiredImage (w : World) (expiredPeriod : ℚ := 30) :
    Outcome String × World × List Effect :=
  match w.storage with
  | none => (.pending, w, [Effect.storageGet])
  | some cacheMapping =>
    let now := w.now
    let expiredPaths :=
      (cacheMapping.filter
        (fun kv => decide (calculateDayGap now kv.2.created > expiredPeriod))).map
        (fun kv => generateAbsolutePath (jsStringOrUndefined kv.2.fileInfo))
    let w1 := { w with files := w.files.filter (fun p => decide (p ∉ expiredPaths)) }
    let reduced := cacheMapping.filter
      (fun kv => decide (calculateDayGap now kv.2.created = 0))
    match w.setItemErr with
    | none =>
      (.resolved "removed expired images from cache",
       { w1 with storage := some reduced },
       [Effect.storageGet] ++ expiredPaths.map Effect.fsUnlink ++ [Effect.storageSet])
    | some e =>
      (.rejected e, w1,
       [Effect.storageGet] ++ expiredPaths.map Effect.fsUnlink ++ [Effect.storageSet])

/-! Concrete environments used to evaluate the model on specific inputs. -/

/-- A world with nothing persisted and an empty disk. -/
def emptyStorageWorld : World :=
  { storage := none, files := [], fetch := fun _ => .err "e" false,
    setItemErr := none, now := 0 }

/-- A valid image URI used in concrete runs. -/
def sampleUri : String := "https://e.com/a.jpg"

/-- The hash collaborator used in concrete runs. -/
def sampleHash : String → String := fun _ => "h"

/-- The URI validator used in concrete runs. -/
def sampleIsUri : String → Bool := fun _ => true

/-- C3: `clearExpiredImage` run with no persisted mapping: the executor
returns without calling `resolve` or `reject`, so the promise never settles
(`Outcome.pending`), contradicting the claim that every input settles. -/
theorem clearExpiredImage_pending_on_missing_table :
    clearExpiredImage emptyStorageWorld 30 =
      (.pending, emptyStorageWorld, [Effect.storageGet]) := rfl

/-- C5: for every URI whose key derivation yields `undefined`, `fetchImage`
rejects with the `wrong file format` error, leaves the world untouched and
performs no I/O effect at all (no probe, no fetch, no unlink, no storage
access). -/
theorem fetchImage_wrongFormat_no_io
    (hashFn : String → String) (isUri : String → Bool) (w : World) (uri : String)
    (h : getImageInfo hashFn isUri uri = none) :
    fetchImage hashFn isUri w uri =
      (.rejected ("wrong file format: " ++ uri), w, []) := by
  simp [fetchImage, h]

/-- Witness for C5: a URI rejected by the validator is rejected with no I/O. -/
theorem fetchImage_wrongFormat_no_io_witness :
    getImageInfo sampleHash (fun _ => false) "x" = none ∧
    fetchImage sampleHash (fun _ => false) emptyStorageWorld "x" =
      (.rejected ("wrong file format: " ++ "x"), emptyStorageWorld, []) :=
  ⟨rfl, fetchImage_wrongFormat_no_io sampleHash (fun _ => false) emptyStorageWorld "x" rfl⟩

/-- C10: when the URI already has an entry in the table, `updateCacheMapping`
resolves with the table as it stands, performs no storage write (only the
read effect) and leaves the world — in particular the persisted table and the
existing entry's `created` stamp — unchanged. -/
theorem updateCacheMapping_existing_noop
    (w : World) (uri fileInfo : String) (e : Entry)
    (h : lookupEntry (w.storage.getD []) uri = some e) :
    updateCacheMapping w uri fileInfo =
      (.resolved (w.storage.getD []), w, [Effect.storageGet]) := by
  simp [updateCacheMapping, getCurrentCacheMappingFromAsyncStorage, h]

/-- Witness for C10: re-announcing a mapped URI with a fresh `fileInfo` and a
later clock writes nothing and keeps the old `created` value. -/
theorem updateCacheMapping_existing_noop_witness :
    lookupEntry ((some [(ImageCache.sampleUri, ⟨some "h.jpg", 5⟩)] : Option Mapping).getD [])
      sampleUri = some ⟨some "h.jpg", 5⟩ ∧
    updateCacheMapping
      { storage := some [(sampleUri, ⟨some "h.jpg", 5⟩)], files := [],
        fetch := fun _ => .err "e" false, setItemErr := none, now := 99 }
      sampleUri "g.jpg" =
      (.resolved [(sampleUri, ⟨some "h.jpg", 5⟩)],
       { storage := some [(sampleUri, ⟨some "h.jpg", 5⟩)], files := [],
         fetch := fun _ => .err "e" false, setItemErr := none, now := 99 },
       [Effect.storageGet]) :=
  ⟨rfl, updateCacheMapping_existing_noop _ sampleUri "g.jpg" ⟨some "h.jpg", 5⟩ rfl⟩

/-- C9: for a URI whose key derivation succeeds, whose artifact is not yet on
disk and whose fetch completes with status 200, `fetchImage` resolves with
`{uri, path}` even though the subsequent mapping-store write is set to fail:
the rejection of `updateCacheMapping` is caught and logged, never surfacing
to the caller. -/
theorem fetchImage_resolves_despite_persistence_failure
    (hashFn : String → String) (isUri : String → Bool) (w : World)
    (uri fileInfo err : String)
    (hk : getImageInfo hashFn isUri uri = some fileInfo)
    (hnf : generateAbsolutePath fileInfo ∉ w.files)
    (h200 : w.fetch uri = .completed 200)
    (_herr : w.setItemErr = some err) :
    ∃ w2 t, fetchImage hashFn isUri w uri =
      (.resolved ⟨uri, generateAbsolutePath fileInfo⟩, w2, t) := by
  refine ⟨(updateCacheMapping { w with files := generateAbsolutePath fileInfo :: w.files }
            uri fileInfo).2.1,
          [Effect.fsExists (generateAbsolutePath fileInfo)] ++ [Effect.netFetch uri] ++
            (updateCacheMapping { w with files := generateAbsolutePath fileInfo :: w.files }
              uri fileInfo).2.2, ?_⟩
  simp [fetchImage, getImagePath, hk, hnf, h200]

/-- Witness for C9: a concrete 200 download with a failing `setItem` still
resolves with the destination path. -/
theorem fetchImage_resolves_despite_persistence_failure_witness :
    getImageInfo sampleHash sampleIsUri sampleUri = some "h.jpg" ∧
    generateAbsolutePath "h.jpg" ∉
      ({ storage := some [], files := [], fetch := fun _ => .completed 200,
         setItemErr := some "disk full", now := 0 } : World).files ∧
    ∃ w2 t, fetchImage sampleHash sampleIsUri
      { storage := some [], files := [], fetch := fun _ => .completed 200,
        setItemErr := some "disk full", now := 0 } sampleUri =
      (.resolved ⟨sampleUri, generateAbsolutePath "h.jpg"⟩, w2, t) :=
  ⟨rfl, by simp,
   fetchImage_resolves_despite_persistence_failure sampleHash sampleIsUri _
     sampleUri "h.jpg" "disk full" rfl (by simp) rfl rfl⟩

/-- A world whose disk already holds the artifact for `sampleUri`, so a
preload of that URI is a cache hit. -/
def hitPreloadWorld : World :=
  { storage := some [], files := [generateAbsolutePath "h.jpg"],
    fetch := fun _ => .err "e" false, setItemErr := none, now := 7 }

/-- C2: a `preloadImages` batch whose single URI is a cache hit persists the
entry `{created: now}` with **no** `fileInfo` (the hit branch of
`preloadImage` resolves `{uri, imagePath}`, so `r.fileInfo` is `undefined`),
even though key derivation for that URI yields the CacheKey `h.jpg` —
contradicting the invariant that every persisted entry maps to a defined
CacheKey. -/
theorem preloadImages_hit_stores_undefined_fileInfo :
    (preloadImages sampleHash sampleIsUri hitPreloadWorld [sampleUri]).2.1.storage
      = some [(sampleUri, { fileInfo := none, created := 7 })] ∧
    (preloadImages sampleHash sampleIsUri hitPreloadWorld [sampleUri]).1
      = .resolved { info := { tried := 1, downloaded := 1 },
                    cacheMapping := [(sampleUri, { fileInfo := none, created := 7 })] } ∧
    getImageInfo sampleHash sampleIsUri sampleUri = some "h.jpg" := by
  refine ⟨rfl, rfl, rfl⟩

/-- A world persisting one entry created exactly one day before `now`, with
its artifact on disk: far within the default 30-day threshold. -/
def freshEntryWorld : World :=
  { storage := some [(sampleUri, ⟨some "h.jpg", 0⟩)],
    files := [generateAbsolutePath "h.jpg"],
    fetch := fun _ => .err "e" false, setItemErr := none, now := 86400000 }

/-- C1: `clearExpiredImage 30` on a table whose only entry is one day old
(day gap 1, not above the threshold 30) correctly leaves the artifact on disk
but nevertheless persists an **empty** table: the removal pass deletes every
entry whose day gap is truthy (nonzero) instead of comparing it against the
threshold, so an unexpired entry loses its table entry. -/
theorem clearExpiredImage_drops_unexpired_entry :
    clearExpiredImage freshEntryWorld 30 =
      (.resolved "removed expired images from cache",
       { freshEntryWorld with storage := some [] },
       [Effect.storageGet, Effect.storageSet]) ∧
    ¬ calculateDayGap freshEntryWorld.now 0 > 30 := by
  have h1 : ¬ calculateDayGap 86400000 0 > 30 := by norm_num [calculateDayGap]
  have h2 : ¬ calculateDayGap 86400000 0 = 0 := by norm_num [calculateDayGap]
  exact ⟨by simp [clearExpiredImage, freshEntryWorld, h1, h2, List.filter], h1⟩

/-- A world whose fetch throws a transport error after writing a partial
file. -/
def transportErrWorld : World :=
  { storage := some [], files := [], fetch := fun _ => .err "network down" true,
    setItemErr := none, now := 0 }

/-- Counterexample to C8 as stated: when the fetch throws a transport error,
`fetchImage` rejects with the underlying error verbatim (here the constant
`network down`, which does not contain the URI), so the rejection does not
identify the URI; the partial file is still cleaned up. -/
theorem fetchImage_transport_error_unidentified_cex :
    (fetchImage sampleHash sampleIsUri transportErrWorld sampleUri).1
      = .rejected "network down" ∧
    ¬ sampleUri.toList <:+: "network down".toList ∧
    (fetchImage sampleHash sampleIsUri transportErrWorld sampleUri).2.1.files = [] := by
  decide

/-- A world whose fetch completes with HTTP status 500. -/
def status500World : World :=
  { storage := some [], files := [], fetch := fun _ => .completed 500,
    setItemErr := none, now := 0 }

/-- C8 (amended): for every URI whose key derivation succeeds, whose artifact
is not yet on disk and whose fetch does not succeed (any completion has a
non-200 status; a transport error is covered vacuously), `fetchImage` rejects
and no artifact remains at the destination path — the unlink being idempotent
by construction (erasing an absent path is a no-op); the rejection carries
`cannot preload image: uri` when a response arrived with a non-200 status,
and the underlying transport error verbatim when the fetch threw. -/
theorem fetchImage_failed_fetch_cleanup
    (hashFn : String → String) (isUri : String → Bool) (w : World)
    (uri fileInfo : String)
    (hk : getImageInfo hashFn isUri uri = some fileInfo)
    (hnf : generateAbsolutePath fileInfo ∉ w.files)
    (hfail : ∀ st, w.fetch uri = .completed st → st ≠ 200) :
    ∃ e w2 t, fetchImage hashFn isUri w uri = (.rejected e, w2, t) ∧
      generateAbsolutePath fileInfo ∉ w2.files ∧
      (∀ st, w.fetch uri = .completed st → e = "cannot preload image: " ++ uri) ∧
      (∀ msg wp, w.fetch uri = .err msg wp → e = msg) := by
  rcases hres : w.fetch uri with st | ⟨msg, wp⟩
  · have hst : st ≠ 200 := hfail st hres
    have heq : fetchImage hashFn isUri w uri =
        (.rejected ("cannot preload image: " ++ uri), w,
         [Effect.fsExists (generateAbsolutePath fileInfo), Effect.netFetch uri,
          Effect.fsUnlink (generateAbsolutePath fileInfo)]) := by
      simp [fetchImage, getImagePath, hk, hnf, hres, hst, List.erase_of_not_mem]
    refine ⟨_, w, _, heq, hnf, fun _ _ => rfl, fun msg wp hmsg => ?_⟩
    cases hmsg
  · have heq : fetchImage hashFn isUri w uri =
        (.rejected msg, w,
         [Effect.fsExists (generateAbsolutePath fileInfo), Effect.netFetch uri,
          Effect.fsUnlink (generateAbsolutePath fileInfo)]) := by
      cases wp <;>
        simp [fetchImage, getImagePath, hk, hnf, hres, List.erase_of_not_mem]
    refine ⟨_, w, _, heq, hnf, fun st hst => ?_, fun msg2 wp2 hmsg => ?_⟩
    · cases hst
    · cases hmsg
      rfl

/-- Witness for C8 (amended): a concrete 500 response rejects with the
URI-bearing error and leaves no artifact at the destination. -/
theorem fetchImage_failed_fetch_cleanup_witness :
    ∃ e w2 t, fetchImage sampleHash sampleIsUri status500World sampleUri =
        (.rejected e, w2, t) ∧
      generateAbsolutePath "h.jpg" ∉ w2.files ∧
      (∀ st, status500World.fetch sampleUri = .completed st →
        e = "cannot preload image: " ++ sampleUri) ∧
      (∀ msg wp, status500World.fetch sampleUri = .err msg wp → e = msg) :=
  fetchImage_failed_fetch_cleanup sampleHash sampleIsUri status500World
    sampleUri "h.jpg" rfl (by simp [status500World])
    (by intro st h; simp only [status500World, FetchResult.completed.injEq] at h; omega)

/-- The counter accumulated by the merge pass counts exactly the defined
(successfully resolved) responses. -/
theorem mergeResponses_count (current : Int) (rs : List (Option PreloadRes)) :
    ∀ acc : Mapping × Nat,
      (mergeResponses current acc rs).2 = acc.2 + rs.countP Option.isSome := by
  induction rs with
  | nil => intro acc; simp [mergeResponses]
  | cons r rs ih =>
    intro acc
    cases r <;> simp [mergeResponses, ih, List.countP_cons] <;> omega

/-- Function `downloadImages` yields one response slot per input URI. -/
theorem downloadImages_length (hashFn : String → String) (isUri : String → Bool)
    (w : World) (uris : List String) :
    (downloadImages hashFn isUri w uris).1.length = uris.length := by
  induction uris generalizing w with
  | nil => rfl
  | cons u us ih => simp [downloadImages, ih]

/-- C4: for every world and every list of URIs, `preloadImages` resolves
(never rejects, never hangs) with `tried` equal to the number of input URIs
and `downloaded` equal to the number of per-URI operations that resolved
successfully (the defined slots of the `downloadImages` response array, which
has one slot per URI; a rejected slot — invalid format or failed fetch — is
swallowed as `undefined` and does not abort the batch). -/
theorem preloadImages_resolves_with_counts (hashFn : String → String)
    (isUri : String → Bool) (w : World) (uris : List String) :
    (∃ m, (preloadImages hashFn isUri w uris).1 =
      .resolved { info := { tried := uris.length,
                            downloaded := (downloadImages hashFn isUri w
                              uris).1.countP Option.isSome },
                  cacheMapping := m }) ∧
    (downloadImages hashFn isUri w uris).1.length = uris.length := by
  refine ⟨⟨(mergeResponses (downloadImages hashFn isUri w uris).2.1.now
      ((downloadImages hashFn isUri w uris).2.1.storage.getD [], 0)
      (downloadImages hashFn isUri w uris).1).1, ?_⟩,
    downloadImages_length hashFn isUri w uris⟩
  simp [preloadImages, getCurrentCacheMappingFromAsyncStorage, mergeResponses_count]

/-- Number of network fetches recorded in an effect trace. -/
def countNetFetches (t : List Effect) : Nat :=
  t.countP fun e =>
    match e with
    | .netFetch _ => true
    | _ => false

/-- Function `updateCacheMapping` touches only the persisted storage: the disk is
unchanged. -/
theorem updateCacheMapping_files (w : World) (uri fileInfo : String) :
    (updateCacheMapping w uri fileInfo).2.1.files = w.files := by
  unfold updateCacheMapping getCurrentCacheMappingFromAsyncStorage
  rcases hl : lookupEntry (w.storage.getD []) uri with _ | e <;>
    rcases hs : w.setItemErr with _ | err <;> simp [hl, hs]

/-- Function `updateCacheMapping` performs no network fetch. -/
theorem updateCacheMapping_no_netFetch (w : World) (uri fileInfo : String) :
    countNetFetches (updateCacheMapping w uri fileInfo).2.2 = 0 := by
  unfold updateCacheMapping getCurrentCacheMappingFromAsyncStorage
  rcases hl : lookupEntry (w.storage.getD []) uri with _ | e <;>
    rcases hs : w.setItemErr with _ | err <;> simp [hl, hs, countNetFetches]

/-- Counting fetches distributes over trace concatenation. -/
theorem countNetFetches_append (t1 t2 : List Effect) :
    countNetFetches (t1 ++ t2) = countNetFetches t1 + countNetFetches t2 :=
  List.countP_append _ _ _

/-- C6: when a first `fetchImage` of a derivable URI resolves, a second
`fetchImage` of the same URI is a pure cache hit: it resolves with
`{uri, path}` after nothing but the existence probe (its whole trace is the
one `fsExists`), leaves the world unchanged, and the two calls together
issue at most one network fetch. -/
theorem fetchImage_second_call_cache_hit (hashFn : String → String)
    (isUri : String → Bool) (w : World) (uri fileInfo : String)
    (v : UriImagePath) (w1 : World) (t1 : List Effect)
    (hk : getImageInfo hashFn isUri uri = some fileInfo)
    (h1 : fetchImage hashFn isUri w uri = (.resolved v, w1, t1)) :
    fetchImage hashFn isUri w1 uri =
      (.resolved ⟨uri, generateAbsolutePath fileInfo⟩, w1,
       [Effect.fsExists (generateAbsolutePath fileInfo)]) ∧
    countNetFetches (t1 ++ [Effect.fsExists (generateAbsolutePath fileInfo)]) ≤ 1 := by
  by_cases hc : generateAbsolutePath fileInfo ∈ w.files
  · have heq : fetchImage hashFn isUri w uri =
        (.resolved ⟨uri, generateAbsolutePath fileInfo⟩, w,
         [Effect.fsExists (generateAbsolutePath fileInfo)]) := by
      simp [fetchImage, getImagePath, hk, hc]
    rw [heq] at h1
    simp only [Prod.mk.injEq, Outcome.resolved.injEq] at h1
    obtain ⟨hv, hw1, ht1⟩ := h1
    subst hw1
    subst ht1
    exact ⟨heq, by simp [countNetFetches]⟩
  · rcases hres : w.fetch uri with st | ⟨msg, wp⟩
    · by_cases hst : st = 200
      · subst hst
        have heq : fetchImage hashFn isUri w uri =
            (.resolved ⟨uri, generateAbsolutePath fileInfo⟩,
             (updateCacheMapping { w with files := generateAbsolutePath fileInfo :: w.files }
               uri fileInfo).2.1,
             [Effect.fsExists (generateAbsolutePath fileInfo), Effect.netFetch uri] ++
               (updateCacheMapping { w with files := generateAbsolutePath fileInfo :: w.files }
                 uri fileInfo).2.2) := by
          simp [fetchImage, getImagePath, hk, hc, hres]
        rw [heq] at h1
        simp only [Prod.mk.injEq, Outcome.resolved.injEq] at h1
        obtain ⟨hv, hw1, ht1⟩ := h1
        have hmem : generateAbsolutePath fileInfo ∈ w1.files := by
          rw [← hw1, updateCacheMapping_files]
          exact List.mem_cons_self _ _
        refine ⟨by simp [fetchImage, getImagePath, hk, hmem], ?_⟩
        rw [← ht1, countNetFetches_append, countNetFetches_append,
          updateCacheMapping_no_netFetch]
        simp [countNetFetches]
      · have : False := by
          simp [fetchImage, getImagePath, hk, hc, hres, hst] at h1
        exact this.elim
    · have : False := by
        cases wp <;> simp [fetchImage, getImagePath, hk, hc, hres] at h1
      exact this.elim

/-- A world with an empty disk whose fetch always succeeds with status 200. -/
def ok200World : World :=
  { storage := some [], files := [], fetch := fun _ => .completed 200,
    setItemErr := none, now := 0 }

/-- Witness for C6: a concrete first download followed by a second call that
is served from disk, with at most one fetch in the combined trace. -/
theorem fetchImage_second_call_cache_hit_witness :
    fetchImage sampleHash sampleIsUri
        (fetchImage sampleHash sampleIsUri ok200World sampleUri).2.1 sampleUri =
      (.resolved ⟨sampleUri, generateAbsolutePath "h.jpg"⟩,
       (fetchImage sampleHash sampleIsUri ok200World sampleUri).2.1,
       [Effect.fsExists (generateAbsolutePath "h.jpg")]) ∧
    countNetFetches ((fetchImage sampleHash sampleIsUri ok200World sampleUri).2.2 ++
      [Effect.fsExists (generateAbsolutePath "h.jpg")]) ≤ 1 :=
  fetchImage_second_call_cache_hit sampleHash sampleIsUri ok200World sampleUri
    "h.jpg" ⟨sampleUri, generateAbsolutePath "h.jpg"⟩
    (fetchImage sampleHash sampleIsUri ok200World sampleUri).2.1
    (fetchImage sampleHash sampleIsUri ok200World sampleUri).2.2 rfl rfl

/-- Index `lastIndexOf` is nonnegative exactly when the character occurs. -/
theorem jsLastIndexOf_nonneg_iff (s : List Char) (c : Char) :
    0 ≤ jsLastIndexOf s c ↔ c ∈ s := by
  induction s with
  | nil => simp [jsLastIndexOf]
  | cons x xs ih =>
    simp only [jsLastIndexOf]
    by_cases h : 0 ≤ jsLastIndexOf xs c
    · rw [if_pos h]
      exact ⟨fun _ => List.mem_cons_of_mem _ (ih.mp h), fun _ => by omega⟩
    · by_cases hx : x = c
      · subst hx
        rw [if_neg h, if_pos rfl]
        simp
      · rw [if_neg h, if_neg hx]
        constructor
        · intro h0
          exact absurd h0 (by omega)
        · intro hmm
          rcases List.mem_cons.mp hmm with h1 | h1
          · exact absurd h1.symm hx
          · exact absurd (ih.mpr h1) h

/-- Index `lastIndexOf` of an absent character is `-1`. -/
theorem jsLastIndexOf_eq_neg_one (s : List Char) (c : Char) (h : c ∉ s) :
    jsLastIndexOf s c = -1 := by
  induction s with
  | nil => rfl
  | cons x xs ih =>
    have hx : ¬ x = c := by
      intro hh
      exact h (by simp [hh])
    have hxs : c ∉ xs := fun hh => h (List.mem_cons_of_mem _ hh)
    simp [jsLastIndexOf, ih hxs, hx]

/-- Index `indexOf` is nonnegative exactly when the character occurs. -/
theorem jsIndexOf_nonneg_iff (s : List Char) (c : Char) :
    0 ≤ jsIndexOf s c ↔ c ∈ s := by
  induction s with
  | nil => simp [jsIndexOf]
  | cons x xs ih =>
    simp only [jsIndexOf]
    by_cases hx : x = c
    · subst hx
      rw [if_pos rfl]
      simp
    · rw [if_neg hx]
      by_cases h : jsIndexOf xs c < 0
      · rw [if_pos h]
        constructor
        · intro h0
          exact absurd h0 (by omega)
        · intro hmm
          rcases List.mem_cons.mp hmm with h1 | h1
          · exact absurd h1.symm hx
          · exact absurd (ih.mpr h1) (by omega)
      · rw [if_neg h]
        exact ⟨fun _ => List.mem_cons_of_mem _ (ih.mp (by omega)), fun _ => by omega⟩

/-- Index `indexOf` of an absent character is `-1`. -/
theorem jsIndexOf_eq_neg_one (s : List Char) (c : Char) (h : c ∉ s) :
    jsIndexOf s c = -1 := by
  induction s with
  | nil => rfl
  | cons x xs ih =>
    have hx : ¬ x = c := by
      intro hh
      exact h (by simp [hh])
    have hxs : c ∉ xs := fun hh => h (List.mem_cons_of_mem _ hh)
    simp [jsIndexOf, ih hxs, hx]

/-- Predicate run `takeWhile (· != c)` keeps a c-free head intact. -/
theorem takeWhile_ne_cons_of_ne (x c : Char) (l : List Char) (h : ¬ x = c) :
    (x :: l).takeWhile (fun a => a != c) =
      x :: l.takeWhile (fun a => a != c) := by
  simp [List.takeWhile_cons, h]

/-- Predicate run `takeWhile (· != c)` stops at `c` itself. -/
theorem takeWhile_ne_cons_self (c : Char) (l : List Char) :
    (c :: l).takeWhile (fun a => a != c) = [] := by
  simp [List.takeWhile_cons]

/-- Predicate run `takeWhile (· != c)` of a c-free list is the list itself. -/
theorem takeWhile_ne_eq_self (l : List Char) (c : Char) (h : c ∉ l) :
    l.takeWhile (fun a => a != c) = l := by
  induction l with
  | nil => rfl
  | cons x xs ih =>
    have hx : ¬ x = c := by
      intro hh
      exact h (by simp [hh])
    have hxs : c ∉ xs := fun hh => h (List.mem_cons_of_mem _ hh)
    rw [takeWhile_ne_cons_of_ne x c xs hx, ih hxs]

/-- When `c` occurs in the left part, `takeWhile (· != c)` never reaches the
right part. -/
theorem takeWhile_ne_append_of_mem (l l2 : List Char) (c : Char) (h : c ∈ l) :
    (l ++ l2).takeWhile (fun a => a != c) =
      l.takeWhile (fun a => a != c) := by
  induction l with
  | nil => cases h
  | cons x xs ih =>
    by_cases hx : x = c
    · subst hx
      rw [List.cons_append, takeWhile_ne_cons_self, takeWhile_ne_cons_self]
    · have hxs : c ∈ xs := by
        rcases List.mem_cons.mp h with h1 | h1
        · exact absurd h1.symm hx
        · exact h1
      rw [List.cons_append, takeWhile_ne_cons_of_ne x c _ hx,
        takeWhile_ne_cons_of_ne x c _ hx, ih hxs]

/-- Appending `c` to a c-free list, `takeWhile (· != c)` returns exactly the
list. -/
theorem takeWhile_ne_append_self (l : List Char) (c : Char) (h : c ∉ l) :
    (l ++ [c]).takeWhile (fun a => a != c) = l := by
  induction l with
  | nil => simp [takeWhile_ne_cons_self]
  | cons x xs ih =>
    have hx : ¬ x = c := by
      intro hh
      exact h (by simp [hh])
    have hxs : c ∉ xs := fun hh => h (List.mem_cons_of_mem _ hh)
    rw [List.cons_append, takeWhile_ne_cons_of_ne x c _ hx, ih hxs]

/-- The JS substring from `lastIndexOf c` is `c` followed by everything after
the last occurrence of `c` (the reversed c-free suffix). -/
theorem jsSubstringFrom_jsLastIndexOf (s : List Char) (c : Char) (h : c ∈ s) :
    jsSubstringFrom s (jsLastIndexOf s c) =
      c :: (s.reverse.takeWhile (fun a => a != c)).reverse := by
  induction s with
  | nil => cases h
  | cons x xs ih =>
    by_cases hm : c ∈ xs
    · have hr : 0 ≤ jsLastIndexOf xs c := (jsLastIndexOf_nonneg_iff xs c).mpr hm
      obtain ⟨n, hn⟩ := Int.eq_ofNat_of_zero_le hr
      have hstep : jsSubstringFrom (x :: xs) (jsLastIndexOf (x :: xs) c) =
          jsSubstringFrom xs (jsLastIndexOf xs c) := by
        simp only [jsLastIndexOf, jsSubstringFrom, hn]
        have h1 : ((n : Int) + 1).toNat = n + 1 := by omega
        have h2 : ((n : Int)).toNat = n := by omega
        rw [if_pos (by omega : (0 : Int) ≤ (n : Int)), h1, h2,
          List.drop_succ_cons]
      rw [hstep, ih hm, List.reverse_cons,
        takeWhile_ne_append_of_mem _ _ c (List.mem_reverse.mpr hm)]
    · have hx : x = c := by
        rcases List.mem_cons.mp h with h1 | h1
        · exact h1.symm
        · exact absurd h1 hm
      subst hx
      have hr : jsLastIndexOf xs x = -1 := jsLastIndexOf_eq_neg_one xs x hm
      have hval : jsLastIndexOf (x :: xs) x = 0 := by
        simp [jsLastIndexOf, hr]
      rw [hval, List.reverse_cons,
        takeWhile_ne_append_self _ x (fun hh => hm (List.mem_reverse.mp hh)),
        List.reverse_reverse]
      rfl

/-- The JS substring up to `indexOf c` is `takeWhile (· != c)`. -/
theorem jsSubstringUpTo_jsIndexOf (s : List Char) (c : Char) (h : c ∈ s) :
    jsSubstringUpTo s (jsIndexOf s c) =
      s.takeWhile (fun a => a != c) := by
  induction s with
  | nil => cases h
  | cons x xs ih =>
    by_cases hx : x = c
    · subst hx
      have hval : jsIndexOf (x :: xs) x = 0 := by
        simp [jsIndexOf]
      rw [hval, takeWhile_ne_cons_self]
      rfl
    · have hxs : c ∈ xs := by
        rcases List.mem_cons.mp h with h1 | h1
        · exact absurd h1.symm hx
        · exact h1
      have hr : 0 ≤ jsIndexOf xs c := (jsIndexOf_nonneg_iff xs c).mpr hxs
      obtain ⟨n, hn⟩ := Int.eq_ofNat_of_zero_le hr
      have hval : jsIndexOf (x :: xs) c = (n : Int) + 1 := by
        simp only [jsIndexOf, if_neg hx, hn]
        rw [if_neg (by omega)]
      rw [hval, takeWhile_ne_cons_of_ne x c _ hx, ← ih hxs]
      simp only [jsSubstringUpTo, hn]
      have h1 : ((n : Int) + 1).toNat = n + 1 := by omega
      have h2 : ((n : Int)).toNat = n := by omega
      rw [h1, h2]
      rfl

/-- The source's query-stripping step (`indexOf('?') === -1 ? path :
path.substring(0, ...)`) is exactly `takeWhile (· != c)`. -/
theorem stripQuery_code (s : List Char) (c : Char) :
    (if jsIndexOf s c = -1 then s else jsSubstringUpTo s (jsIndexOf s c)) =
      s.takeWhile (fun a => a != c) := by
  by_cases h : c ∈ s
  · have hne : ¬ jsIndexOf s c = -1 := by
      have := (jsIndexOf_nonneg_iff s c).mpr h
      omega
    rw [if_neg hne, jsSubstringUpTo_jsIndexOf s c h]
  · rw [if_pos (jsIndexOf_eq_neg_one s c h), takeWhile_ne_eq_self s c h]

/-- C7: key derivation in the source coincides, for every injected validator
and hash and every URI, with the spec's Identity Deriver: a URI is accepted
iff it passes validation, its last path segment (query stripped) contains a
`.` and the substring from the last `.` is exactly one of `.jpg`, `.png`,
`.jpeg`, `.gif` (case-sensitive); on acceptance the key is
`hash(uri) + "." + extensionWithoutDot`, a function of the full URI string
alone — the same URI always yields the same key. -/
theorem getImageInfo_eq_deriveKeySpec (hashFn : String → String)
    (isUri : String → Bool) (uri : String) :
    getImageInfo hashFn isUri uri = deriveKeySpec hashFn isUri uri := by
  by_cases hu : isUri uri = true
  · simp only [getImageInfo, deriveKeySpec, hu, if_true]
    by_cases hs : '/' ∈ uri.toList
    · rw [jsSubstringFrom_jsLastIndexOf _ _ hs, stripQuery_code,
        takeWhile_ne_cons_of_ne '/' '?' _ (by decide)]
      set seg := ((uri.toList.reverse.takeWhile (fun a => a != '/')).reverse).takeWhile
        (fun a => a != '?') with hseg
      by_cases hd : '.' ∈ seg
      · have hd2 : '.' ∈ '/' :: seg := List.mem_cons_of_mem _ hd
        rw [if_pos ((jsLastIndexOf_nonneg_iff _ '.').mpr hd2), if_pos hd,
          jsSubstringFrom_jsLastIndexOf _ '.' hd2, List.reverse_cons,
          takeWhile_ne_append_of_mem _ _ '.' (List.mem_reverse.mpr hd)]
      · have hd2 : '.' ∉ '/' :: seg := by
          intro hh
          rcases List.mem_cons.mp hh with h1 | h1
          · exact absurd h1 (by decide)
          · exact hd h1
        rw [if_neg (fun hge => hd2 ((jsLastIndexOf_nonneg_iff _ _).mp hge)),
          if_neg hd]
    · have hpath : jsSubstringFrom uri.toList (jsLastIndexOf uri.toList '/') =
          uri.toList := by
        rw [jsLastIndexOf_eq_neg_one _ _ hs]
        rfl
      have hseg2 : (uri.toList.reverse.takeWhile (fun a => a != '/')).reverse =
          uri.toList := by
        rw [takeWhile_ne_eq_self _ _ (fun hh => hs (List.mem_reverse.mp hh)),
          List.reverse_reverse]
      rw [hpath, stripQuery_code, hseg2]
      set seg := uri.toList.takeWhile (fun a => a != '?') with hseg
      by_cases hd : '.' ∈ seg
      · rw [if_pos ((jsLastIndexOf_nonneg_iff _ '.').mpr hd), if_pos hd,
          jsSubstringFrom_jsLastIndexOf _ '.' hd]
      · rw [if_neg (fun hge => hd ((jsLastIndexOf_nonneg_iff _ _).mp hge)),
          if_neg hd]
  · simp only [getImageInfo, deriveKeySpec]
    rw [if_neg hu, if_neg hu]

end ImageCache

